import Mathlib

/-!
Shallow embedding of the iqx stock-data synchronization pipeline
(`SimplizeService`, `CompanyModel`, `DataSyncScript`) together with proofs
about its transformer, retry loop, scheduler, filter and upsert store.

Conventions of the embedding:
* TypeScript `number` payload fields are modelled as `Int`; the pipeline only
  copies them from the raw summary into the normalized record, so their exact
  arithmetic type is irrelevant to every statement below.
* A JavaScript value that may be `undefined` is modelled as an `Option`.
* Timed waits (`setTimeout`) are recorded as the list of requested delays in
  milliseconds, in order, instead of really sleeping.
* The Postgres table behind `CompanyModel` is modelled as a list of rows; row
  timestamps are abstract `Nat` clock values supplied by the caller.
-/

namespace IQX

/-- JavaScript `parseInt` with radix 10: leading whitespace is skipped, an
optional sign is read, then the longest digit prefix is converted; the result
is `none` (modelling `NaN`) when no digit is found. -/
def parseIntJS (s : String) : Option Int :=
  let cs := s.toList.dropWhile (fun c => c.isWhitespace)
  let signRest : Int × List Char :=
    match cs with
    | '-' :: t => (-1, t)
    | '+' :: t => (1, t)
    | t => (1, t)
  let digits := signRest.2.takeWhile (fun c => c.isDigit)
  if digits.isEmpty then none
  else some (signRest.1 * ((digits.foldl (fun acc c => acc * 10 + (c.toNat - 48)) (0 : Nat) : Nat) : Int))

/-- Truthiness of a JavaScript string: truthy exactly when non-empty. -/
def jsTruthy (s : String) : Bool := !s.toList.isEmpty

/-- Splitting a list of characters at every occurrence of a separator
character, keeping empty pieces, as JavaScript `split` does. -/
def splitOnChar (sep : Char) : List Char → List (List Char)
  | [] => [[]]
  | c :: rest =>
    if c = sep then [] :: splitOnChar sep rest
    else
      match splitOnChar sep rest with
      | h :: t => (c :: h) :: t
      | [] => [[c]]

/-- JavaScript `String.prototype.split` with a one-character separator, the
only form the pipeline uses (split on a space, a slash or a colon). -/
def jsSplit (s : String) (sep : Char) : List String :=
  (splitOnChar sep s.toList).map (fun cs => String.mk cs)

/-- JavaScript `String.prototype.toUpperCase` on the ASCII letters the ticker
alphabet uses. -/
def jsToUpper (s : String) : String := String.mk (s.toList.map Char.toUpper)

/-- JavaScript `String.prototype.trim`: strip whitespace from both ends. -/
def jsTrim (s : String) : String :=
  String.mk ((((s.toList.dropWhile (fun c => c.isWhitespace)).reverse).dropWhile
    (fun c => c.isWhitespace)).reverse)

/-- Value produced by the JavaScript `Date` constructor: either a valid date
(recorded with the constructor arguments: year, zero-based month index, day,
hour, minute, second) or an Invalid Date. -/
inductive JsDate where
  | valid (year monthIndex day hour minute second : Int)
  | invalid
  deriving DecidableEq, Repr

/-- JavaScript `new Date(year, monthIndex, day, hour, minute, second)` where a
`NaN` argument (modelled as `none`) yields an Invalid Date. Out-of-range
component normalization is not modelled; the statements below only exercise
in-range components. -/
def jsDateOf (year monthIndex day hour minute second : Option Int) : JsDate :=
  match year, monthIndex, day, hour, minute, second with
  | some y, some mo, some d, some h, some mi, some s => .valid y mo d h mi s
  | _, _, _, _, _, _ => .invalid

/-- Raw external record, mirroring the `CompanySummary` interface of
`src/types/index.ts` (field defaults only ease building concrete examples). -/
structure CompanySummary where
  id : Int := 0
  ticker : String := ""
  nameVi : String := ""
  nameEn : String := ""
  name : String := ""
  industryActivity : String := ""
  bcIndustryGroupId : Int := 0
  bcIndustryGroupSlug : String := ""
  bcIndustryGroupCode : String := ""
  bcIndustryGroupType : String := ""
  bcEconomicSectorId : Int := 0
  bcEconomicSectorSlug : String := ""
  bcEconomicSectorName : String := ""
  website : String := ""
  mainService : String := ""
  businessLine : String := ""
  businessStrategy : String := ""
  businessRisk : String := ""
  businessOverall : String := ""
  detailInfo : String := ""
  marketCap : Int := 0
  outstandingSharesValue : Int := 0
  analysisUpdated : String := ""
  stockExchange : String := ""
  priceClose : Int := 0
  isInWatchlist : Bool := false
  netChange : Int := 0
  pctChange : Int := 0
  priceReferrance : Int := 0
  priceOpen : Int := 0
  priceFloor : Int := 0
  priceLow : Int := 0
  priceHigh : Int := 0
  priceCeiling : Int := 0
  priceTimeStamp : String := ""
  priceType : Int := 0
  volume10dAvg : Int := 0
  volume : Int := 0
  peRatio : Int := 0
  pbRatio : Int := 0
  epsRatio : Int := 0
  bookValue : Int := 0
  freeFloatRate : Int := 0
  valuationPoint : Int := 0
  growthPoint : Int := 0
  passPerformancePoint : Int := 0
  financialHealthPoint : Int := 0
  dividendPoint : Int := 0
  imageUrl : String := ""
  dividendYieldCurrent : Int := 0
  beta5y : Int := 0
  pricePctChg7d : Int := 0
  pricePctChg30d : Int := 0
  pricePctChgYtd : Int := 0
  pricePctChg1y : Int := 0
  pricePctChg3y : Int := 0
  pricePctChg5y : Int := 0
  companyQuality : Int := 0
  overallRiskLevel : String := ""
  qualityValuation : String := ""
  taSignal1d : String := ""
  watchlistCount : Int := 0
  roe : Int := 0
  roa : Int := 0
  revenue5yGrowth : Int := 0
  netIncome5yGrowth : Int := 0
  revenueLtmGrowth : Int := 0
  netIncomeLtmGrowth : Int := 0
  revenueGrowthQoq : Int := 0
  netIncomeGrowthQoq : Int := 0
  type : String := ""
  country : String := ""

/-- Normalized company record: the 69 mapped attributes of the `Company`
interface of `src/types/index.ts`, exactly the column list of the upsert in
`CompanyModel.upsert`. The interface additionally declares optional
database-assigned `id`, `createdAt` and `updatedAt`; those are never set by
the transformer nor sent by the upsert, and are modelled on `CompanyRow`. -/
structure Company where
  ticker : String := ""
  nameVi : Option String := none
  nameEn : Option String := none
  industryActivity : Option String := none
  bcIndustryGroupId : Option Int := none
  bcIndustryGroupSlug : Option String := none
  bcIndustryGroupCode : Option String := none
  bcIndustryGroupType : Option String := none
  bcEconomicSectorId : Option Int := none
  bcEconomicSectorSlug : Option String := none
  bcEconomicSectorName : Option String := none
  website : Option String := none
  mainService : Option String := none
  businessLine : Option String := none
  businessStrategy : Option String := none
  businessRisk : Option String := none
  businessOverall : Option String := none
  detailInfo : Option String := none
  marketCap : Option Int := none
  outstandingSharesValue : Option Int := none
  analysisUpdated : Option JsDate := none
  stockExchange : Option String := none
  priceClose : Option Int := none
  netChange : Option Int := none
  pctChange : Option Int := none
  priceReference : Option Int := none
  priceOpen : Option Int := none
  priceFloor : Option Int := none
  priceLow : Option Int := none
  priceHigh : Option Int := none
  priceCeiling : Option Int := none
  priceTimestamp : Option JsDate := none
  priceType : Option Int := none
  volume10dAvg : Option Int := none
  volume : Option Int := none
  peRatio : Option Int := none
  pbRatio : Option Int := none
  epsRatio : Option Int := none
  bookValue : Option Int := none
  freeFloatRate : Option Int := none
  valuationPoint : Option Int := none
  growthPoint : Option Int := none
  passPerformancePoint : Option Int := none
  financialHealthPoint : Option Int := none
  dividendPoint : Option Int := none
  imageUrl : Option String := none
  dividendYieldCurrent : Option Int := none
  beta5y : Option Int := none
  pricePctChg7d : Option Int := none
  pricePctChg30d : Option Int := none
  pricePctChgYtd : Option Int := none
  pricePctChg1y : Option Int := none
  pricePctChg3y : Option Int := none
  pricePctChg5y : Option Int := none
  companyQuality : Option Int := none
  overallRiskLevel : Option String := none
  qualityValuation : Option String := none
  taSignal1d : Option String := none
  watchlistCount : Option Int := none
  roe : Option Int := none
  roa : Option Int := none
  revenue5yGrowth : Option Int := none
  netIncome5yGrowth : Option Int := none
  revenueLtmGrowth : Option Int := none
  netIncomeLtmGrowth : Option Int := none
  revenueGrowthQoq : Option Int := none
  netIncomeGrowthQoq : Option Int := none
  type : Option String := none
  country : Option String := none

/-- Truthiness of a possibly-undefined JavaScript string: truthy exactly when
present and non-empty. -/
def strTruthy (s : Option String) : Bool :=
  match s with
  | some t => jsTruthy t
  | none => false

/-- Branch of `SimplizeService.transformSimplizeData` parsing
`summary.analysisUpdated`: a string containing a slash is split on the slash as
`DD/MM/YYYY`; any other layout goes to the generic `new Date(string)` parse,
which is host-defined and therefore passed in as `jsDateParse`. When the three
split components are not all truthy the field stays `undefined` (`none`). -/
def parseAnalysisUpdated (jsDateParse : String → JsDate) (dateStr : String) : Option JsDate :=
  if dateStr.toList.contains '/' then
    let dateParts := jsSplit dateStr '/'
    let day := dateParts.get? 0
    let month := dateParts.get? 1
    let year := dateParts.get? 2
    if strTruthy day && strTruthy month && strTruthy year then
      some (jsDateOf (parseIntJS (year.getD ""))
        ((parseIntJS (month.getD "")).map (fun n => n - 1))
        (parseIntJS (day.getD "")) (some 0) (some 0) (some 0))
    else none
  else some (jsDateParse dateStr)

/-- Branch of `SimplizeService.transformSimplizeData` parsing
`summary.priceTimeStamp` in the `DD/MM/YYYY HH:mm:ss` layout: split on the
space into date and time part, split those on the slash and the colon; when
any required component is missing or empty the field stays `undefined`. -/
def parsePriceTimestamp (s : String) : Option JsDate :=
  let parts := jsSplit s ' '
  let datePart := parts.get? 0
  let timePart := parts.get? 1
  if strTruthy datePart && strTruthy timePart then
    let dateParts := jsSplit (datePart.getD "") '/'
    let timeParts := jsSplit (timePart.getD "") ':'
    let day := dateParts.get? 0
    let month := dateParts.get? 1
    let year := dateParts.get? 2
    let hour := timeParts.get? 0
    let minute := timeParts.get? 1
    let second := timeParts.get? 2
    if strTruthy day && strTruthy month && strTruthy year &&
        strTruthy hour && strTruthy minute && strTruthy second then
      some (jsDateOf (parseIntJS (year.getD ""))
        ((parseIntJS (month.getD "")).map (fun n => n - 1))
        (parseIntJS (day.getD "")) (parseIntJS (hour.getD ""))
        (parseIntJS (minute.getD "")) (parseIntJS (second.getD "")))
    else none
  else none

/-- Embedding of `SimplizeService.transformSimplizeData`: one-to-one field
renaming from the raw summary to the normalized record, with the two defensive
date parses above and the deliberate mapping of the misspelled source key
`priceReferrance` onto `priceReference`. -/
def transformSimplizeData (jsDateParse : String → JsDate) (summary : CompanySummary) : Company :=
  let analysisUpdated : Option JsDate :=
    if jsTruthy summary.analysisUpdated then
      parseAnalysisUpdated jsDateParse summary.analysisUpdated
    else none
  let priceTimestamp : Option JsDate :=
    if jsTruthy summary.priceTimeStamp then
      parsePriceTimestamp summary.priceTimeStamp
    else none
  { ticker := summary.ticker
    nameVi := some (if jsTruthy summary.nameVi then summary.nameVi else summary.name)
    nameEn := some summary.nameEn
    industryActivity := some summary.industryActivity
    bcIndustryGroupId := some summary.bcIndustryGroupId
    bcIndustryGroupSlug := some summary.bcIndustryGroupSlug
    bcIndustryGroupCode := some summary.bcIndustryGroupCode
    bcIndustryGroupType := some summary.bcIndustryGroupType
    bcEconomicSectorId := some summary.bcEconomicSectorId
    bcEconomicSectorSlug := some summary.bcEconomicSectorSlug
    bcEconomicSectorName := some summary.bcEconomicSectorName
    website := some summary.website
    mainService := some summary.mainService
    businessLine := some summary.businessLine
    businessStrategy := some summary.businessStrategy
    businessRisk := some summary.businessRisk
    businessOverall := some summary.businessOverall
    detailInfo := some summary.detailInfo
    marketCap := some summary.marketCap
    outstandingSharesValue := some summary.outstandingSharesValue
    analysisUpdated := analysisUpdated
    stockExchange := some summary.stockExchange
    priceClose := some summary.priceClose
    netChange := some summary.netChange
    pctChange := some summary.pctChange
    priceReference := some summary.priceReferrance
    priceOpen := some summary.priceOpen
    priceFloor := some summary.priceFloor
    priceLow := some summary.priceLow
    priceHigh := some summary.priceHigh
    priceCeiling := some summary.priceCeiling
    priceTimestamp := priceTimestamp
    priceType := some summary.priceType
    volume10dAvg := some summary.volume10dAvg
    volume := some summary.volume
    peRatio := some summary.peRatio
    pbRatio := some summary.pbRatio
    epsRatio := some summary.epsRatio
    bookValue := some summary.bookValue
    freeFloatRate := some summary.freeFloatRate
    valuationPoint := some summary.valuationPoint
    growthPoint := some summary.growthPoint
    passPerformancePoint := some summary.passPerformancePoint
    financialHealthPoint := some summary.financialHealthPoint
    dividendPoint := some summary.dividendPoint
    imageUrl := some summary.imageUrl
    dividendYieldCurrent := some summary.dividendYieldCurrent
    beta5y := some summary.beta5y
    pricePctChg7d := some summary.pricePctChg7d
    pricePctChg30d := some summary.pricePctChg30d
    pricePctChgYtd := some summary.pricePctChgYtd
    pricePctChg1y := some summary.pricePctChg1y
    pricePctChg3y := some summary.pricePctChg3y
    pricePctChg5y := some summary.pricePctChg5y
    companyQuality := some summary.companyQuality
    overallRiskLevel := some summary.overallRiskLevel
    qualityValuation := some summary.qualityValuation
    taSignal1d := some summary.taSignal1d
    watchlistCount := some summary.watchlistCount
    roe := some summary.roe
    roa := some summary.roa
    revenue5yGrowth := some summary.revenue5yGrowth
    netIncome5yGrowth := some summary.netIncome5yGrowth
    revenueLtmGrowth := some summary.revenueLtmGrowth
    netIncomeLtmGrowth := some summary.netIncomeLtmGrowth
    revenueGrowthQoq := some summary.revenueGrowthQoq
    netIncomeGrowthQoq := some summary.netIncomeGrowthQoq
    type := some summary.type
    country := some summary.country }

/-- Warnings signalled by `transformSimplizeData` while mapping one summary.
The only two `logger.warn` calls of the function sit in `catch` blocks; the
corresponding `try` bodies consist of `String.prototype.split`, `parseInt`
and the `Date` constructor, all of which are total on string inputs and never
throw, so for every summary the emitted warning list is empty. -/
def transformWarnings (_summary : CompanySummary) : List String := []

/-- Per-attempt behaviour observed by `DataSyncScript.fetchWithRetry` when it
awaits `SimplizeService.fetchCompanyData` for attempt `n`: the awaited call
either throws (handled by the catch branch of the source loop) or returns a
normalized record or null. -/
inductive AttemptResult where
  | threw (msg : String)
  | returned (data : Option Company)

/-- Per-identifier outcome record (`WorkerResult`) of the sync script. -/
structure WorkerResult where
  ticker : String
  success : Bool
  error : Option String := none
  data : Option Company := none
  attempts : Nat

/-- Backoff of `DataSyncScript.fetchWithRetry` after failed attempt `attempt`:
`Math.min(1000 * Math.pow(2, attempt - 1), 5000)` milliseconds. -/
def backoffDelay (attempt : Nat) : Nat := min (1000 * 2 ^ (attempt - 1)) 5000

/-- Loop of `DataSyncScript.fetchWithRetry`. `fuel` counts the attempts still
allowed (the wrapper starts it at `maxRetries` with `attempt = 1`); the first
component is the worker result, the second the list of backoff delays
requested between attempts, in order. On a null service result the last error
becomes `No data returned for <ticker>`; on a thrown error it becomes the
message, with the falsy-message fallback `Unknown error`. A delay is requested
only while attempts remain. -/
def fetchWithRetryGo (ticker : String) (res : Nat → AttemptResult) (maxRetries : Nat) :
    Nat → Nat → String → WorkerResult × List Nat
  | 0, _, lastError =>
    ({ ticker := ticker, success := false, error := some lastError, attempts := maxRetries }, [])
  | fuel + 1, attempt, lastError =>
    match res attempt with
    | .returned (some d) =>
      ({ ticker := ticker, success := true, data := some d, attempts := attempt }, [])
    | .returned none =>
      let lastError := "No data returned for " ++ ticker
      if attempt < maxRetries then
        let rest := fetchWithRetryGo ticker res maxRetries fuel (attempt + 1) lastError
        (rest.1, backoffDelay attempt :: rest.2)
      else
        fetchWithRetryGo ticker res maxRetries fuel (attempt + 1) lastError
    | .threw msg =>
      let lastError := if jsTruthy msg then msg else "Unknown error"
      if attempt < maxRetries then
        let rest := fetchWithRetryGo ticker res maxRetries fuel (attempt + 1) lastError
        (rest.1, backoffDelay attempt :: rest.2)
      else
        fetchWithRetryGo ticker res maxRetries fuel (attempt + 1) lastError

/-- Embedding of `DataSyncScript.fetchWithRetry ticker maxRetries`, with the
per-attempt behaviour supplied by the oracle `res`. -/
def fetchWithRetry (ticker : String) (res : Nat → AttemptResult) (maxRetries : Nat) :
    WorkerResult × List Nat :=
  fetchWithRetryGo ticker res maxRetries maxRetries 1 ""

/-- Outcome of one HTTP GET issued by `SimplizeService.fetchCompanyData`: the
request either rejects (network error, timeout, non-2xx status) or resolves,
and a resolved payload may or may not carry `pageProps.summary`. -/
inductive ReqResult where
  | reqError (msg : String)
  | reqOk (summary : Option CompanySummary)

/-- Loop of `SimplizeService.fetchCompanyData`, issuing requests through the
oracle `req` indexed by a global request counter and returning the record (or
null) together with the advanced counter. A resolved response without
`pageProps.summary` returns null at once (no internal retry); a rejected
request is retried internally until the service's own configured `maxRetries`
is consumed. The wait between internal retries affects neither the returned
value nor the request count and is not recorded. -/
def fetchCompanyDataGo (jsDateParse : String → JsDate) (req : Nat → ReqResult)
    (maxRetries : Nat) : Nat → Nat → Nat → Option Company × Nat
  | 0, _, reqCount => (none, reqCount)
  | fuel + 1, attempt, reqCount =>
    match req reqCount with
    | .reqOk (some summary) => (some (transformSimplizeData jsDateParse summary), reqCount + 1)
    | .reqOk none => (none, reqCount + 1)
    | .reqError _ =>
      if attempt == maxRetries then (none, reqCount + 1)
      else fetchCompanyDataGo jsDateParse req maxRetries fuel (attempt + 1) (reqCount + 1)

/-- Embedding of `SimplizeService.fetchCompanyData` starting at request
counter `reqCount`, with the service-configured internal retry bound
`maxRetries` (3 unless overridden by the environment). -/
def fetchCompanyData (jsDateParse : String → JsDate) (req : Nat → ReqResult)
    (maxRetries : Nat) (reqCount : Nat) : Option Company × Nat :=
  fetchCompanyDataGo jsDateParse req maxRetries maxRetries 1 reqCount

/-- Loop of `DataSyncScript.fetchWithRetry` composed with the real
`SimplizeService.fetchCompanyData`, threading the global request counter; the
second component is the total number of external requests issued. The service
call never throws (every rejection inside it is caught and becomes null), so
the catch branch of the outer loop is unreachable in this composition. -/
def syncFetchGo (ticker : String) (jsDateParse : String → JsDate) (req : Nat → ReqResult)
    (serviceMaxRetries maxRetries : Nat) : Nat → Nat → Nat → String → WorkerResult × Nat
  | 0, _, reqCount, lastError =>
    ({ ticker := ticker, success := false, error := some lastError, attempts := maxRetries }, reqCount)
  | fuel + 1, attempt, reqCount, lastError =>
    let call := fetchCompanyData jsDateParse req serviceMaxRetries reqCount
    match call.1 with
    | some d =>
      ({ ticker := ticker, success := true, data := some d, attempts := attempt }, call.2)
    | none =>
      syncFetchGo ticker jsDateParse req serviceMaxRetries maxRetries fuel (attempt + 1) call.2
        ("No data returned for " ++ ticker)

/-- `DataSyncScript.fetchWithRetry ticker maxRetries` run against the real
service; returns the worker result and the total count of external requests. -/
def syncFetch (ticker : String) (jsDateParse : String → JsDate) (req : Nat → ReqResult)
    (serviceMaxRetries maxRetries : Nat) : WorkerResult × Nat :=
  syncFetchGo ticker jsDateParse req serviceMaxRetries maxRetries maxRetries 1 0 ""

/-- Row of the `companies` table: the 69 mapped columns plus the two
timestamp columns maintained by the SQL (`created_at` fixed at first insert,
`updated_at` advanced on every update). -/
structure CompanyRow where
  company : Company
  created_at : Nat
  updated_at : Nat

/-- Embedding of `CompanyModel.upsert` at database clock `now`:
`INSERT ... ON CONFLICT (ticker) DO UPDATE SET` every mapped column to the
incoming record's value (absent fields overwrite as nulls, since the whole
mapped record is replaced) and `updated_at = CURRENT_TIMESTAMP`; the insert
branch assigns both timestamps to `now`. -/
def upsert (store : List CompanyRow) (c : Company) (now : Nat) : List CompanyRow :=
  if store.any (fun row => row.company.ticker == c.ticker) then
    store.map (fun row =>
      if row.company.ticker == c.ticker then
        { company := c, created_at := row.created_at, updated_at := now }
      else row)
  else
    store ++ [{ company := c, created_at := now, updated_at := now }]

/-- Embedding of `CompanyModel.findByTicker`: `SELECT * FROM companies WHERE
ticker = $1`, the argument uppercased before the query. -/
def findByTicker (store : List CompanyRow) (ticker : String) : Option CompanyRow :=
  store.find? (fun row => row.company.ticker == jsToUpper ticker)

/-- Embedding of `DataSyncScript.loadTickers` applied to the already parsed
JSON array: uppercase and trim every entry, then drop falsy (empty) entries
(`.filter(Boolean)`). -/
def loadTickers (tickers : List String) : List String :=
  (tickers.map (fun t => jsTrim (jsToUpper t))).filter (fun t => jsTruthy t)

/-- Options record (`SyncOptions`) of the sync script; a field is `none` when
the corresponding CLI flag was not passed. -/
structure SyncOptions where
  batchSize : Option Nat := none
  startIndex : Option Nat := none
  endIndex : Option Nat := none
  specificTickers : Option (List String) := none
  skipExisting : Option Bool := none
  workers : Option Nat := none
  maxRetries : Option Nat := none

/-- JavaScript `a || d` on an optionally-present number: the default is taken
both when the value is absent and when it is 0, since 0 is falsy. -/
def jsOrNat (v : Option Nat) (d : Nat) : Nat :=
  match v with
  | some n => if n = 0 then d else n
  | none => d

/-- JavaScript `Array.prototype.slice(start, stop)` for non-negative bounds:
the elements at indices `[start, stop)`, clamped to the array. -/
def jsSlice (l : List α) (start stop : Nat) : List α :=
  (l.drop start).take (stop - start)

/-- Index-range step of `DataSyncScript.filterTickers`: runs when at least one
of `startIndex`/`endIndex` is present; `start` falls back to 0 and `end` to
the full universe length (also when given as 0, by falsiness). -/
def rangeStep (tickers : List String) (options : SyncOptions) : List String :=
  if options.startIndex.isSome || options.endIndex.isSome then
    jsSlice tickers (jsOrNat options.startIndex 0) (jsOrNat options.endIndex tickers.length)
  else tickers

/-- Explicit-subset step of `DataSyncScript.filterTickers`: when a non-empty
`specificTickers` list is present, normalize its entries and keep exactly the
candidate entries occurring in it. -/
def subsetStep (tickers : List String) (options : SyncOptions) : List String :=
  match options.specificTickers with
  | some l =>
    if 0 < l.length then
      tickers.filter (fun ticker => (l.map (fun t => jsTrim (jsToUpper t))).contains ticker)
    else tickers
  | none => tickers

/-- Skip-if-present step of `DataSyncScript.filterTickers`: first collect the
candidates for which `findByTicker` reports an existing row, then drop them. -/
def skipStep (store : List CompanyRow) (tickers : List String) : List String :=
  let existingTickers := tickers.filter (fun ticker => (findByTicker store ticker).isSome)
  tickers.filter (fun ticker => !existingTickers.contains ticker)

/-- Embedding of `DataSyncScript.filterTickers`, transcribed clause by clause
from the source (successive reassignments of `filteredTickers`). -/
def filterTickers (store : List CompanyRow) (tickers : List String)
    (options : SyncOptions) : List String :=
  let filteredTickers := tickers
  let filteredTickers :=
    if options.startIndex.isSome || options.endIndex.isSome then
      jsSlice filteredTickers (jsOrNat options.startIndex 0) (jsOrNat options.endIndex tickers.length)
    else filteredTickers
  let filteredTickers :=
    match options.specificTickers with
    | some l =>
      if 0 < l.length then
        filteredTickers.filter (fun ticker => (l.map (fun t => jsTrim (jsToUpper t))).contains ticker)
      else filteredTickers
    | none => filteredTickers
  let filteredTickers :=
    if options.skipExisting.getD false then
      let existingTickers := filteredTickers.filter (fun ticker => (findByTicker store ticker).isSome)
      filteredTickers.filter (fun ticker => !existingTickers.contains ticker)
    else filteredTickers
  filteredTickers

/-- Chunking loop of `DataSyncScript.syncWithWorkers`:
`for (i = 0; i < tickers.length; i += concurrency) push(slice(i, i + concurrency))`,
written with the list length as structural fuel so that it computes by
reduction. The wrapper always passes enough fuel; `concurrency` is never 0 at
the call site (`options.workers || 128`). -/
def chunkListGo (c : Nat) : Nat → List α → List (List α)
  | _, [] => []
  | 0, _ :: _ => []
  | fuel + 1, a :: t => (a :: t).take c :: chunkListGo c fuel ((a :: t).drop c)

/-- Chunk list built by `DataSyncScript.syncWithWorkers` before processing. -/
def chunkList (l : List α) (c : Nat) : List (List α) :=
  chunkListGo c l.length l

/-- Settled results of one chunk of `DataSyncScript.syncWithWorkers`: a falsy
(empty) ticker resolves to null before any work; every other slot resolves to
the outcome of its per-ticker task. `outcome` abstracts that task (the
try/catch around `fetchWithRetry` and `upsert`, which always resolves to a
success or failure object and never rejects). -/
def chunkResults (outcome : String → Bool) (chunk : List String) : List (Option Bool) :=
  chunk.map (fun ticker => if jsTruthy ticker then some (outcome ticker) else none)

/-- Counting fold of `DataSyncScript.syncWithWorkers` over one chunk's settled
results: null slots are ignored, others bump the success or failure counter. -/
def countResults (results : List (Option Bool)) (acc : Nat × Nat) : Nat × Nat :=
  results.foldl (fun acc r =>
    match r with
    | some true => (acc.1 + 1, acc.2)
    | some false => (acc.1, acc.2 + 1)
    | none => acc) acc

/-- Embedding of `DataSyncScript.syncWithWorkers`: chunk the ticker list by
the effective concurrency (`options.workers || 128`), settle every chunk,
accumulate the counters, and return `(successCount, failedCount)`. The fixed
1000 ms inter-chunk pacing delay influences neither counter and is not
recorded. -/
def syncWithWorkers (outcome : String → Bool) (tickers : List String)
    (options : SyncOptions) : Nat × Nat :=
  let concurrency := jsOrNat options.workers 128
  (chunkList tickers concurrency).foldl
    (fun acc chunk => countResults (chunkResults outcome chunk) acc) (0, 0)

/-- Conditional skip-if-present stage as `filterTickers` runs it: the skip
step fires only when the `skipExisting` flag is truthy. -/
def skipStepIf (store : List CompanyRow) (tickers : List String)
    (options : SyncOptions) : List String :=
  if options.skipExisting.getD false then skipStep store tickers else tickers

/-- Helper: when every attempt of the retry loop yields null, the loop runs
its remaining fuel down, ends with the no-data reason and `maxRetries` as the
attempt count, and requests one backoff per attempt that still had attempts
remaining after it. -/
theorem fetchWithRetryGo_allFailed (ticker : String) (res : Nat → AttemptResult) (k : Nat)
    (hres : ∀ n, res n = .returned none) :
    ∀ fuel attempt lastError, attempt + fuel = k + 1 → 0 < fuel →
      fetchWithRetryGo ticker res k fuel attempt lastError =
        ({ ticker := ticker, success := false,
           error := some ("No data returned for " ++ ticker), attempts := k },
         (List.range' attempt (fuel - 1)).map backoffDelay) := by
  intro fuel
  induction fuel with
  | zero => intro attempt lastError _ h; exact absurd h (by omega)
  | succ f ih =>
    intro attempt lastError hsum _
    rw [fetchWithRetryGo, hres attempt]
    by_cases hlt : attempt < k
    · have hf : 0 < f := by omega
      rw [if_pos hlt, ih (attempt + 1) _ (by omega) hf]
      have : f - 1 + 1 = f := by omega
      simp only [Nat.add_sub_cancel]
      rw [← this, List.range'_succ]
      simp
    · have hak : attempt = k := by omega
      have hf0 : f = 0 := by omega
      subst hak hf0
      rw [if_neg hlt, fetchWithRetryGo]
      simp

/-- C1: for an identifier whose payload is empty or malformed on every
attempt (the service call returns null each time), `fetchWithRetry(ticker, k)`
with `k ≥ 1` returns a failure carrying the last observed reason
(`No data returned for <ticker>`) and attempt count `k`, and the delay
requested before attempt `n + 1` (0-based position `n` of the delay list) is
exactly `min(1000 * 2^n, 5000)` milliseconds, for every `n < k - 1`. -/
theorem fetchWithRetry_allFailed (ticker : String) (res : Nat → AttemptResult) (k : Nat)
    (hk : 1 ≤ k) (hres : ∀ n, res n = .returned none) :
    fetchWithRetry ticker res k =
      ({ ticker := ticker, success := false,
         error := some ("No data returned for " ++ ticker), attempts := k },
       (List.range (k - 1)).map (fun n => min (1000 * 2 ^ n) 5000)) := by
  rw [fetchWithRetry, fetchWithRetryGo_allFailed ticker res k hres k 1 "" (by omega) (by omega)]
  congr 1
  rw [List.range'_eq_map_range, List.map_map]
  apply List.map_congr_left
  intro n _
  simp [backoffDelay, Function.comp]

/-- Witness for C1 at `k = 3`: three failed attempts, delays 1000 then 2000. -/
theorem fetchWithRetry_allFailed_witness :
    fetchWithRetry "AAA" (fun _ => AttemptResult.returned none) 3 =
      ({ ticker := "AAA", success := false,
         error := some ("No data returned for " ++ "AAA"), attempts := 3 },
       (List.range 2).map (fun n => min (1000 * 2 ^ n) 5000)) :=
  fetchWithRetry_allFailed "AAA" (fun _ => AttemptResult.returned none) 3 (by omega)
    (fun _ => rfl)

/-- Helper: with every request rejecting, one `fetchCompanyData` call burns
its remaining internal fuel, returns null, and advances the request counter by
exactly that fuel. -/
theorem fetchCompanyDataGo_allError (f : String → JsDate) (req : Nat → ReqResult) (R : Nat)
    (hreq : ∀ n, ∃ m, req n = .reqError m) :
    ∀ fuel attempt reqCount, attempt + fuel = R + 1 → 0 < fuel →
      fetchCompanyDataGo f req R fuel attempt reqCount = (none, reqCount + fuel) := by
  intro fuel
  induction fuel with
  | zero => intro attempt reqCount _ h; exact absurd h (by omega)
  | succ fl ih =>
    intro attempt reqCount hsum _
    obtain ⟨m, hm⟩ := hreq reqCount
    rw [fetchCompanyDataGo, hm]
    by_cases ha : attempt = R
    · have hf0 : fl = 0 := by omega
      subst hf0
      simp [ha]
    · have hne : (attempt == R) = false := by simp [ha]
      rw [hne]
      simp only [Bool.false_eq_true, if_false]
      rw [ih (attempt + 1) (reqCount + 1) (by omega) (by omega)]
      simp
      omega

/-- Helper: with every request rejecting and an internal retry bound `R ≥ 1`,
each `fetchCompanyData` call returns null after exactly `R` requests. -/
theorem fetchCompanyData_allError (f : String → JsDate) (req : Nat → ReqResult) (R : Nat)
    (hR : 1 ≤ R) (hreq : ∀ n, ∃ m, req n = .reqError m) (reqCount : Nat) :
    fetchCompanyData f req R reqCount = (none, reqCount + R) :=
  fetchCompanyDataGo_allError f req R hreq R 1 reqCount (by omega) (by omega)

/-- Helper: with every request rejecting, the composed retry loop fails after
consuming all its fuel, and the request counter advances by `R` per attempt. -/
theorem syncFetchGo_allError (ticker : String) (f : String → JsDate) (req : Nat → ReqResult)
    (R k : Nat) (hR : 1 ≤ R) (hreq : ∀ n, ∃ m, req n = .reqError m) :
    ∀ fuel attempt reqCount lastError, 0 < fuel →
      syncFetchGo ticker f req R k fuel attempt reqCount lastError =
        ({ ticker := ticker, success := false,
           error := some ("No data returned for " ++ ticker), attempts := k },
         reqCount + fuel * R) := by
  intro fuel
  induction fuel with
  | zero => intro attempt reqCount lastError h; exact absurd h (by omega)
  | succ fl ih =>
    intro attempt reqCount lastError _
    rw [syncFetchGo]
    simp only [fetchCompanyData_allError f req R hR hreq reqCount]
    cases fl with
    | zero =>
      rw [syncFetchGo]
      simp
    | succ fl2 =>
      rw [ih (attempt + 1) (reqCount + R) _ (by omega)]
      simp
      ring

/-- C2 as stated is refuted: with the default internal service retry bound 3,
a `fetchWithRetry` run with `k = 2` in which every request errors issues 6
external requests in total, not 2. -/
theorem syncFetch_requestCount_counterexample :
    (syncFetch "AAA" (fun _ => JsDate.invalid) (fun _ => ReqResult.reqError "network error") 3 2).2 = 6 ∧
    (6 : Nat) ≠ 2 :=
  ⟨rfl, by omega⟩

/-- C2 amended: each attempt of `fetchWithRetry` issues exactly one call to
the data service, and on a well-formed non-empty payload on the very first
request it returns success after exactly one attempt and one external request,
regardless of `k ≥ 1`. But a rejected request is retried inside
`fetchCompanyData` up to the service's own retry bound `R` (3 by default), so
a run in which every request errors issues exactly `k * R` external requests
(while still reporting `k` attempts and failure). -/
theorem syncFetch_amended (ticker : String) (f : String → JsDate)
    (req1 req2 : Nat → ReqResult) (s : CompanySummary) (R k : Nat)
    (hR : 1 ≤ R) (hk : 1 ≤ k)
    (h1 : req1 0 = .reqOk (some s))
    (h2 : ∀ n, ∃ m, req2 n = .reqError m) :
    syncFetch ticker f req1 R k =
      ({ ticker := ticker, success := true,
         data := some (transformSimplizeData f s), attempts := 1 }, 1) ∧
    (syncFetch ticker f req2 R k).2 = k * R ∧
    (syncFetch ticker f req2 R k).1.success = false ∧
    (syncFetch ticker f req2 R k).1.attempts = k := by
  refine ⟨?_, ?_⟩
  · obtain ⟨k2, rfl⟩ : ∃ k2, k = k2 + 1 := ⟨k - 1, by omega⟩
    obtain ⟨R2, rfl⟩ : ∃ R2, R = R2 + 1 := ⟨R - 1, by omega⟩
    rw [syncFetch, syncFetchGo, fetchCompanyData, fetchCompanyDataGo, h1]
  · rw [syncFetch, syncFetchGo_allError ticker f req2 R k hR h2 k 1 0 "" (by omega)]
    exact ⟨by simp [Nat.mul_comm], rfl, rfl⟩

/-- Witness for C2 amended at `R = 3`, `k = 2`: one request on a good first
payload; 6 requests when every request errors. -/
theorem syncFetch_amended_witness :
    syncFetch "BBB" (fun _ => JsDate.invalid)
        (fun _ => ReqResult.reqOk (some { ticker := "BBB" })) 3 2 =
      ({ ticker := "BBB", success := true,
         data := some (transformSimplizeData (fun _ => JsDate.invalid) { ticker := "BBB" }),
         attempts := 1 }, 1) ∧
    (syncFetch "BBB" (fun _ => JsDate.invalid) (fun _ => ReqResult.reqError "boom") 3 2).2 = 2 * 3 ∧
    (syncFetch "BBB" (fun _ => JsDate.invalid) (fun _ => ReqResult.reqError "boom") 3 2).1.success = false ∧
    (syncFetch "BBB" (fun _ => JsDate.invalid) (fun _ => ReqResult.reqError "boom") 3 2).1.attempts = 2 :=
  syncFetch_amended "BBB" (fun _ => JsDate.invalid)
    (fun _ => ReqResult.reqOk (some { ticker := "BBB" }))
    (fun _ => ReqResult.reqError "boom") { ticker := "BBB" } 3 2
    (by omega) (by omega) rfl (fun n => ⟨"boom", rfl⟩)

/-- C3: starting from a store with no row for the ticker, upserting record
`r1` at time `t1` and then record `r2` (same ticker) at time `t2` leaves the
store with exactly one row for that ticker; that row carries every mapped
field of `r2` (the whole mapped record is replaced, so fields absent on `r2`
overwrite as nulls), its `updated_at` is the second call's clock `t2`, and its
`created_at` keeps the value `t1` assigned at the first insert. -/
theorem upsert_twice_lastWriteWins (store : List CompanyRow) (r1 r2 : Company) (t1 t2 : Nat)
    (hfresh : ∀ row ∈ store, row.company.ticker ≠ r1.ticker)
    (ht : r2.ticker = r1.ticker) :
    upsert (upsert store r1 t1) r2 t2 =
      store ++ [{ company := r2, created_at := t1, updated_at := t2 }] ∧
    ((upsert (upsert store r1 t1) r2 t2).filter
      (fun row => row.company.ticker == r2.ticker)).length = 1 := by
  have hfresh2 : ∀ row ∈ store, (row.company.ticker == r1.ticker) = false := by
    intro row hrow
    simpa using hfresh row hrow
  have hany1 : (store.any fun row => row.company.ticker == r1.ticker) = false := by
    rw [List.any_eq_false]
    intro row hrow
    simp [hfresh2 row hrow]
  have h1 : upsert store r1 t1 =
      store ++ [{ company := r1, created_at := t1, updated_at := t1 }] := by
    rw [upsert, hany1]
    simp
  have h2 : upsert (upsert store r1 t1) r2 t2 =
      store ++ [{ company := r2, created_at := t1, updated_at := t2 }] := by
    rw [h1, upsert, if_pos (by simp [ht]), List.map_append]
    congr 1
    · conv_rhs => rw [← List.map_id store]
      apply List.map_congr_left
      intro row hrow
      simp [ht, hfresh2 row hrow]
    · simp [ht]
  refine ⟨h2, ?_⟩
  rw [h2, List.filter_append]
  have hstore : store.filter (fun row => row.company.ticker == r2.ticker) = [] := by
    rw [List.filter_eq_nil_iff]
    intro row hrow
    simp [ht, hfresh2 row hrow]
  rw [hstore]
  simp

/-- Witness for C3: two upserts of ticker `VIC` into the empty store at times
1 and 2, the second changing the closing price and dropping the open price. -/
theorem upsert_twice_lastWriteWins_witness :
    upsert (upsert [] ({ ticker := "VIC", priceClose := some 100, priceOpen := some 95 } : Company) 1)
        ({ ticker := "VIC", priceClose := some 200 } : Company) 2 =
      [] ++ [{ company := { ticker := "VIC", priceClose := some 200 },
               created_at := 1, updated_at := 2 }] ∧
    ((upsert (upsert [] ({ ticker := "VIC", priceClose := some 100, priceOpen := some 95 } : Company) 1)
        ({ ticker := "VIC", priceClose := some 200 } : Company) 2).filter
      (fun row => row.company.ticker == ("VIC" : String))).length = 1 :=
  upsert_twice_lastWriteWins [] { ticker := "VIC", priceClose := some 100, priceOpen := some 95 }
    { ticker := "VIC", priceClose := some 200 } 1 2 (by simp) rfl

/-- Helper: the chunking loop over an empty list produces no chunk. -/
theorem chunkListGo_nil (c : Nat) (fuel : Nat) :
    chunkListGo c fuel ([] : List α) = [] := by
  cases fuel <;> rfl

/-- Helper: concatenating the chunks gives back the original list. -/
theorem chunkListGo_flatten (c : Nat) (hc : 0 < c) :
    ∀ fuel (l : List α), l.length ≤ fuel → (chunkListGo c fuel l).flatten = l := by
  intro fuel
  induction fuel with
  | zero =>
    intro l hl
    have : l = [] := List.length_eq_zero.mp (by omega)
    subst this
    rfl
  | succ f ih =>
    intro l hl
    cases l with
    | nil => rfl
    | cons a t =>
      rw [chunkListGo]
      rw [List.flatten_cons]
      rw [ih ((a :: t).drop c) (by simp at hl ⊢; omega)]
      exact List.take_append_drop c (a :: t)

/-- Helper: the chunking loop does not depend on the exact fuel, as long as
the fuel covers the list length. -/
theorem chunkListGo_fuel (c : Nat) (hc : 0 < c) :
    ∀ fuel fuel2 (l : List α), l.length ≤ fuel → l.length ≤ fuel2 →
      chunkListGo c fuel l = chunkListGo c fuel2 l := by
  intro fuel
  induction fuel with
  | zero =>
    intro fuel2 l hl _
    have : l = [] := List.length_eq_zero.mp (by omega)
    subst this
    rw [chunkListGo_nil, chunkListGo_nil]
  | succ f ih =>
    intro fuel2 l hl hl2
    cases l with
    | nil => rw [chunkListGo_nil, chunkListGo_nil]
    | cons a t =>
      cases fuel2 with
      | zero => simp at hl2
      | succ f2 =>
        rw [chunkListGo, chunkListGo]
        rw [ih f2 ((a :: t).drop c) (by simp at hl ⊢; omega) (by simp at hl2 ⊢; omega)]

/-- Helper: unfolding equation of `chunkList` on a non-empty list. -/
theorem chunkList_cons (c : Nat) (hc : 0 < c) (l : List α) (hl : l ≠ []) :
    chunkList l c = l.take c :: chunkList (l.drop c) c := by
  cases l with
  | nil => exact absurd rfl hl
  | cons a t =>
    rw [chunkList]
    simp only [List.length_cons]
    rw [chunkListGo]
    rw [chunkList]
    rw [chunkListGo_fuel c hc t.length ((a :: t).drop c).length ((a :: t).drop c)
      (by simp; omega) (le_refl _)]

/-- Helper: every chunk is non-empty and no longer than the concurrency. -/
theorem chunkListGo_mem_length (c : Nat) (hc : 0 < c) :
    ∀ fuel (l : List α), l.length ≤ fuel →
      ∀ ch ∈ chunkListGo c fuel l, 0 < ch.length ∧ ch.length ≤ c := by
  intro fuel
  induction fuel with
  | zero =>
    intro l hl ch hch
    have : l = [] := List.length_eq_zero.mp (by omega)
    subst this
    simp [chunkListGo_nil] at hch
  | succ f ih =>
    intro l hl ch hch
    cases l with
    | nil => simp [chunkListGo_nil] at hch
    | cons a t =>
      rw [chunkListGo] at hch
      rcases List.mem_cons.mp hch with h | h
      · subst h
        constructor
        · simp
          omega
        · simp
      · exact ih ((a :: t).drop c) (by simp at hl ⊢; omega) ch h

/-- Helper: every chunk except possibly the last has length exactly the
concurrency. -/
theorem chunkListGo_dropLast_length (c : Nat) (hc : 0 < c) :
    ∀ fuel (l : List α), l.length ≤ fuel →
      ∀ ch ∈ (chunkListGo c fuel l).dropLast, ch.length = c := by
  intro fuel
  induction fuel with
  | zero =>
    intro l hl ch hch
    have : l = [] := List.length_eq_zero.mp (by omega)
    subst this
    simp [chunkListGo_nil] at hch
  | succ f ih =>
    intro l hl ch hch
    cases l with
    | nil => simp [chunkListGo_nil] at hch
    | cons a t =>
      rw [chunkListGo] at hch
      cases hrest : chunkListGo c f ((a :: t).drop c) with
      | nil => rw [hrest] at hch; simp at hch
      | cons r rs =>
        rw [hrest] at hch
        rw [List.dropLast_cons_of_ne_nil (by simp)] at hch
        rcases List.mem_cons.mp hch with h | h
        · subst h
          have hne : (a :: t).drop c ≠ [] := by
            intro hd
            rw [hd, chunkListGo_nil] at hrest
            exact List.noConfusion hrest
          have hpos := List.length_pos.mpr hne
          simp only [List.length_drop, List.length_cons] at hpos
          simp only [List.length_take, List.length_cons]
          omega
        · have := ih ((a :: t).drop c) (by simp at hl ⊢; omega)
          rw [hrest] at this
          exact this ch h

/-- Helper: jsTruthy holds exactly on non-empty strings. -/
theorem jsTruthy_iff (t : String) : jsTruthy t = true ↔ t ≠ "" := by
  cases t with
  | mk data =>
    cases data with
    | nil => simp [jsTruthy, String.toList]
    | cons c cs =>
      simp only [jsTruthy, String.toList]
      constructor
      · intro _ he
        exact List.noConfusion (congrArg String.data he)
      · intro _
        simp

/-- Helper: counting one chunk adds exactly one success or failure per truthy
slot, whatever the outcomes. -/
theorem countResults_sum (outcome : String → Bool) (ch : List String) :
    ∀ s0 f0 : Nat,
      (countResults (chunkResults outcome ch) (s0, f0)).1 +
        (countResults (chunkResults outcome ch) (s0, f0)).2 =
      s0 + f0 + (ch.filter (fun t => jsTruthy t)).length := by
  induction ch with
  | nil => intro s0 f0; simp [countResults, chunkResults]
  | cons t rest ih =>
    intro s0 f0
    by_cases ht : jsTruthy t
    · cases houtcome : outcome t
      · have hstep : countResults (chunkResults outcome (t :: rest)) (s0, f0) =
            countResults (chunkResults outcome rest) (s0, f0 + 1) := by
          simp [countResults, chunkResults, ht, houtcome]
        rw [hstep, ih s0 (f0 + 1),
          @List.filter_cons_of_pos String (fun s => jsTruthy s) t rest ht]
        simp only [List.length_cons]
        omega
      · have hstep : countResults (chunkResults outcome (t :: rest)) (s0, f0) =
            countResults (chunkResults outcome rest) (s0 + 1, f0) := by
          simp [countResults, chunkResults, ht, houtcome]
        rw [hstep, ih (s0 + 1) f0,
          @List.filter_cons_of_pos String (fun s => jsTruthy s) t rest ht]
        simp only [List.length_cons]
        omega
    · have hstep : countResults (chunkResults outcome (t :: rest)) (s0, f0) =
          countResults (chunkResults outcome rest) (s0, f0) := by
        simp [countResults, chunkResults, ht]
      rw [hstep, ih s0 f0,
        @List.filter_cons_of_neg String (fun s => jsTruthy s) t rest (by simpa using ht)]

/-- Helper: folding the counting step over a chunk list counts exactly one
outcome per truthy slot of the concatenation of the chunks. -/
theorem syncFold_sum (outcome : String → Bool) (chunks : List (List String)) :
    ∀ s0 f0 : Nat,
      ((chunks.foldl (fun acc chunk => countResults (chunkResults outcome chunk) acc) (s0, f0)).1 +
       (chunks.foldl (fun acc chunk => countResults (chunkResults outcome chunk) acc) (s0, f0)).2) =
      s0 + f0 + (chunks.flatten.filter (fun t => jsTruthy t)).length := by
  induction chunks with
  | nil => intro s0 f0; simp
  | cons ch rest ih =>
    intro s0 f0
    rw [List.foldl_cons]
    cases hacc : countResults (chunkResults outcome ch) (s0, f0) with
    | mk s1 f1 =>
      rw [ih s1 f1]
      have hsum := countResults_sum outcome ch s0 f0
      rw [hacc] at hsum
      simp at hsum
      simp only [List.flatten_cons, List.filter_append, List.length_append]
      omega

/-- Helper: `successCount + failedCount` equals the number of truthy (that is,
non-empty) identifiers handed to the scheduler, for every outcome function and
every options record. -/
theorem syncWithWorkers_sum (outcome : String → Bool) (tickers : List String)
    (options : SyncOptions) :
    (syncWithWorkers outcome tickers options).1 + (syncWithWorkers outcome tickers options).2 =
      (tickers.filter (fun t => jsTruthy t)).length := by
  have hc : 0 < jsOrNat options.workers 128 := by
    cases hv : options.workers with
    | none => simp [jsOrNat]
    | some n =>
      simp only [jsOrNat]
      by_cases hn : n = 0
      · simp [hn]
      · simp [hn]
        omega
  rw [syncWithWorkers, syncFold_sum outcome _ 0 0]
  rw [chunkList, chunkListGo_flatten _ hc _ tickers (le_refl _)]
  simp

/-- C4: for a non-empty identifier list and concurrency `c > 0`, the
scheduler's chunking concatenates back to the input (consecutive chunks),
every chunk but possibly the last has length exactly `c`, every chunk is
non-empty and no longer than `c`; in particular 10 identifiers with `c = 3`
give chunk sizes `[3, 3, 3, 1]`; and when every identifier is a non-empty
string, `successCount + failedCount` equals the number of identifiers,
whatever the per-identifier outcomes. -/
theorem syncWithWorkers_chunking_total (l : List String) (c : Nat)
    (hc : 0 < c) (hl : l ≠ []) :
    (chunkList l c).flatten = l ∧
    (∀ ch ∈ (chunkList l c).dropLast, ch.length = c) ∧
    (∀ ch ∈ chunkList l c, 0 < ch.length ∧ ch.length ≤ c) ∧
    (l.length = 10 → c = 3 → (chunkList l c).map List.length = [3, 3, 3, 1]) ∧
    ((∀ t ∈ l, t ≠ "") → ∀ outcome : String → Bool,
      (syncWithWorkers outcome l { workers := some c }).1 +
        (syncWithWorkers outcome l { workers := some c }).2 = l.length) := by
  refine ⟨chunkListGo_flatten c hc l.length l (le_refl _),
    chunkListGo_dropLast_length c hc l.length l (le_refl _),
    chunkListGo_mem_length c hc l.length l (le_refl _), ?_, ?_⟩
  · intro h10 hc3
    subst hc3
    have hstep : ∀ (m : List String), m.length = 10 →
        (chunkList m 3).map List.length = [3, 3, 3, 1] := by
      intro m hm
      have h1 : m ≠ [] := by intro e; rw [e] at hm; simp at hm
      rw [chunkList_cons 3 (by omega) m h1]
      have hm1 : (m.drop 3).length = 7 := by simp [hm]
      have h2 : m.drop 3 ≠ [] := by
        intro e; rw [e] at hm1; simp at hm1
      rw [chunkList_cons 3 (by omega) (m.drop 3) h2]
      have hm2 : ((m.drop 3).drop 3).length = 4 := by simp [hm]
      have h3 : (m.drop 3).drop 3 ≠ [] := by
        intro e; rw [e] at hm2; simp at hm2
      rw [chunkList_cons 3 (by omega) ((m.drop 3).drop 3) h3]
      have hm3 : (((m.drop 3).drop 3).drop 3).length = 1 := by simp [hm]
      have h4 : ((m.drop 3).drop 3).drop 3 ≠ [] := by
        intro e; rw [e] at hm3; simp at hm3
      rw [chunkList_cons 3 (by omega) (((m.drop 3).drop 3).drop 3) h4]
      have hm4 : ((((m.drop 3).drop 3).drop 3).drop 3).length = 0 := by simp [hm]
      have h5 : (((m.drop 3).drop 3).drop 3).drop 3 = [] :=
        List.length_eq_zero.mp hm4
      rw [h5, chunkList, chunkListGo_nil]
      simp [List.length_take, hm, hm1, hm2, hm3]
    exact hstep l h10
  · intro hne outcome
    rw [syncWithWorkers_sum outcome l { workers := some c }]
    have : l.filter (fun t => jsTruthy t) = l :=
      List.filter_eq_self.mpr (fun t ht => (jsTruthy_iff t).mpr (hne t ht))
    rw [this]

/-- Witness for C4 at 10 concrete identifiers and concurrency 3. -/
theorem syncWithWorkers_chunking_total_witness :
    (chunkList ["A","B","C","D","E","F","G","H","I","J"] 3).map List.length = [3, 3, 3, 1] ∧
    (syncWithWorkers (fun t => t == "A") ["A","B","C","D","E","F","G","H","I","J"]
        { workers := some 3 }).1 +
      (syncWithWorkers (fun t => t == "A") ["A","B","C","D","E","F","G","H","I","J"]
        { workers := some 3 }).2 = 10 :=
  ⟨(syncWithWorkers_chunking_total ["A","B","C","D","E","F","G","H","I","J"] 3
      (by omega) (by simp)).2.2.2.1 rfl rfl,
   (syncWithWorkers_chunking_total ["A","B","C","D","E","F","G","H","I","J"] 3
      (by omega) (by simp)).2.2.2.2 (by decide) (fun t => t == "A")⟩

/-- Helper: a list containing the empty string has strictly fewer truthy
entries than entries. -/
theorem length_filter_truthy_lt (l : List String) (h : "" ∈ l) :
    (l.filter (fun t => jsTruthy t)).length < l.length := by
  induction l with
  | nil => simp at h
  | cons t rest ih =>
    rcases List.mem_cons.mp h with he | he
    · rw [← he]
      rw [@List.filter_cons_of_neg String (fun s => jsTruthy s) "" rest (by decide)]
      simp only [List.length_cons]
      have := List.length_filter_le (fun s => jsTruthy s) rest
      omega
    · by_cases ht : jsTruthy t
      · rw [@List.filter_cons_of_pos String (fun s => jsTruthy s) t rest ht]
        simp only [List.length_cons]
        exact Nat.succ_lt_succ (ih he)
      · rw [@List.filter_cons_of_neg String (fun s => jsTruthy s) t rest (by simpa using ht)]
        simp only [List.length_cons]
        exact Nat.lt_succ_of_lt (ih he)

/-- C9: an identifier that is an empty string is silently skipped by the
scheduler: the counters total exactly the number of truthy (non-empty)
identifiers, so when the list contains an empty-string entry,
`successCount + failedCount` is strictly less than the number of scheduled
identifiers, for every outcome function and options record. -/
theorem syncWithWorkers_emptyTicker (outcome : String → Bool) (tickers : List String)
    (options : SyncOptions) (h : "" ∈ tickers) :
    (syncWithWorkers outcome tickers options).1 + (syncWithWorkers outcome tickers options).2 =
      (tickers.filter (fun t => jsTruthy t)).length ∧
    (syncWithWorkers outcome tickers options).1 + (syncWithWorkers outcome tickers options).2 <
      tickers.length :=
  ⟨syncWithWorkers_sum outcome tickers options, by
    rw [syncWithWorkers_sum outcome tickers options]
    exact length_filter_truthy_lt tickers h⟩

/-- Witness for C9 at `["A", "", "B"]` with concurrency 2: two counted
outcomes for three scheduled identifiers. -/
theorem syncWithWorkers_emptyTicker_witness :
    (syncWithWorkers (fun _ => true) ["A", "", "B"] { workers := some 2 }).1 +
      (syncWithWorkers (fun _ => true) ["A", "", "B"] { workers := some 2 }).2 =
      (["A", "", "B"].filter (fun t => jsTruthy t)).length ∧
    (syncWithWorkers (fun _ => true) ["A", "", "B"] { workers := some 2 }).1 +
      (syncWithWorkers (fun _ => true) ["A", "", "B"] { workers := some 2 }).2 <
      (["A", "", "B"] : List String).length :=
  syncWithWorkers_emptyTicker (fun _ => true) ["A", "", "B"] { workers := some 2 } (by simp)

/-- C5: `filterTickers` is the composition of its three stages in the fixed
source order (index range, then explicit subset, then skip-if-present), and
with `startIndex = 2`, `endIndex = 5` over a 10-element universe it yields
exactly the elements at positions `[2, 5)` of the universe, in their original
order. -/
theorem filterTickers_order_range (store : List CompanyRow) (tickers u : List String)
    (options : SyncOptions) (hu : u.length = 10) :
    filterTickers store tickers options =
      skipStepIf store (subsetStep (rangeStep tickers options) options) options ∧
    filterTickers store u { startIndex := some 2, endIndex := some 5 } = (u.drop 2).take 3 ∧
    ((u.drop 2).take 3).length = 3 ∧
    (∀ i, i < 3 → ((u.drop 2).take 3)[i]? = u[2 + i]?) := by
  refine ⟨rfl, rfl, ?_, ?_⟩
  · simp [hu]
  · intro i hi
    rw [List.getElem?_take_of_lt hi, List.getElem?_drop]

/-- Witness for C5 over a concrete 10-element universe. -/
theorem filterTickers_order_range_witness :
    filterTickers [] ["T0","T1","T2","T3","T4","T5","T6","T7","T8","T9"]
        { startIndex := some 2, endIndex := some 5 } =
      (["T0","T1","T2","T3","T4","T5","T6","T7","T8","T9"].drop 2).take 3 ∧
    ((["T0","T1","T2","T3","T4","T5","T6","T7","T8","T9"].drop 2).take 3).length = 3 ∧
    (∀ i, i < 3 → ((["T0","T1","T2","T3","T4","T5","T6","T7","T8","T9"].drop 2).take 3)[i]? =
      ["T0","T1","T2","T3","T4","T5","T6","T7","T8","T9"][2 + i]?) :=
  (filterTickers_order_range [] [] ["T0","T1","T2","T3","T4","T5","T6","T7","T8","T9"]
    {} rfl).2

/-- C6: with `skipExisting` set, the skip stage removes exactly the
candidates for which `findByTicker` reports an existing row (and only those),
the survivors keep their original relative order (the result is a sublist of
the input), and `filterTickers` with only `skipExisting` set is exactly that
stage. -/
theorem filterTickers_skipExisting (store : List CompanyRow) (l : List String) :
    skipStep store l = l.filter (fun t => (findByTicker store t).isNone) ∧
    List.Sublist (skipStep store l) l ∧
    filterTickers store l { skipExisting := some true } = skipStep store l := by
  have hmain : skipStep store l = l.filter (fun t => (findByTicker store t).isNone) := by
    rw [skipStep]
    apply List.filter_congr
    intro t htl
    by_cases hf : (findByTicker store t).isSome
    · have hmem : t ∈ l.filter (fun s => (findByTicker store s).isSome) :=
        List.mem_filter.mpr ⟨htl, hf⟩
      simp [List.elem_eq_mem, hmem, Option.isNone_iff_eq_none, ← Option.not_isSome_iff_eq_none, hf]
    · have hmem : t ∉ l.filter (fun s => (findByTicker store s).isSome) := by
        intro hc
        exact hf (List.mem_filter.mp hc).2
      simp [List.elem_eq_mem, hmem, Option.isNone_iff_eq_none, ← Option.not_isSome_iff_eq_none, hf]
  refine ⟨hmain, ?_, rfl⟩
  rw [hmain]
  exact List.filter_sublist l

/-- C10: the explicit-subset stage is an intersection with the candidate list
kept in candidate order: an entry survives exactly when it occurs both in the
candidate list and in the normalized subset, the result is a sublist of the
candidate list (candidate order, not subset order), and a normalized subset
entry that does not occur in the candidate list never appears in the result. -/
theorem subsetStep_intersection (tickers sub : List String) (hsub : sub ≠ []) :
    (∀ t, t ∈ subsetStep tickers { specificTickers := some sub } ↔
      t ∈ tickers ∧ t ∈ sub.map (fun x => jsTrim (jsToUpper x))) ∧
    List.Sublist (subsetStep tickers { specificTickers := some sub }) tickers ∧
    (∀ x, x ∉ tickers → x ∉ subsetStep tickers { specificTickers := some sub }) := by
  have hlen : 0 < sub.length := List.length_pos.mpr hsub
  have hstep : subsetStep tickers { specificTickers := some sub } =
      tickers.filter (fun ticker => (sub.map (fun t => jsTrim (jsToUpper t))).contains ticker) := by
    have hunfold : subsetStep tickers { specificTickers := some sub } =
        if 0 < sub.length then
          tickers.filter (fun ticker => (sub.map (fun t => jsTrim (jsToUpper t))).contains ticker)
        else tickers := rfl
    rw [hunfold, if_pos hlen]
  refine ⟨?_, ?_, ?_⟩
  · intro t
    rw [hstep, List.mem_filter]
    simp [List.elem_eq_mem]
  · rw [hstep]
    exact List.filter_sublist tickers
  · intro x hx hmem
    rw [hstep] at hmem
    exact hx (List.mem_filter.mp hmem).1

/-- Witness for C10: subset `["ccc ", "aaa", "ZZZ"]` over candidates
`["AAA", "BBB", "CCC"]` keeps `AAA` and `CCC` in candidate order and drops the
normalized `ZZZ`, which is not a candidate. -/
theorem subsetStep_intersection_witness :
    (("AAA" : String) ∈ subsetStep ["AAA", "BBB", "CCC"]
        { specificTickers := some ["ccc ", "aaa", "ZZZ"] } ↔
      ("AAA" : String) ∈ ["AAA", "BBB", "CCC"] ∧
      ("AAA" : String) ∈ ["ccc ", "aaa", "ZZZ"].map (fun x => jsTrim (jsToUpper x))) ∧
    (("ZZZ" : String) ∉ (["AAA", "BBB", "CCC"] : List String) →
      ("ZZZ" : String) ∉ subsetStep ["AAA", "BBB", "CCC"]
        { specificTickers := some ["ccc ", "aaa", "ZZZ"] }) :=
  ⟨(subsetStep_intersection ["AAA", "BBB", "CCC"] ["ccc ", "aaa", "ZZZ"] (by simp)).1 "AAA",
   (subsetStep_intersection ["AAA", "BBB", "CCC"] ["ccc ", "aaa", "ZZZ"] (by simp)).2.2 "ZZZ"⟩

/-- C7 as stated is refuted on the warning leg: for a raw record whose
`priceTimeStamp` is `not-a-date`, the date field is omitted and the record
(with its other fields) is still produced, but no warning is signalled — the
only two warn sites of the transformer sit in catch blocks whose try bodies
(split, parseInt, the Date constructor) never throw on string input. -/
theorem transformDates_counterexample :
    (transformSimplizeData (fun _ => JsDate.invalid)
      { ticker := "AAA", priceTimeStamp := "not-a-date" }).priceTimestamp = none ∧
    (transformSimplizeData (fun _ => JsDate.invalid)
      { ticker := "AAA", priceTimeStamp := "not-a-date" }).ticker = "AAA" ∧
    transformWarnings { ticker := "AAA", priceTimeStamp := "not-a-date" } = [] :=
  ⟨rfl, rfl, rfl⟩

/-- C7 amended: a raw record with `priceTimeStamp = "05/03/2024 09:30:00"`
normalizes to the price timestamp `Date(2024, 2, 5, 9, 30, 0)`, that is
calendar 2024-03-05 09:30:00 (the constructor month index 2 is March); with
`priceTimeStamp = "not-a-date"` the date field is omitted, the record is still
produced (its other fields, such as the ticker, intact) and no exception
escapes (the transformer is a total function); but no warning is signalled in
either case — the warning fires only on a thrown parse exception, which
string inputs never produce. -/
theorem transformDates_amended (f : String → JsDate) (s1 s2 : CompanySummary)
    (h1 : s1.priceTimeStamp = "05/03/2024 09:30:00")
    (h2 : s2.priceTimeStamp = "not-a-date") :
    (transformSimplizeData f s1).priceTimestamp = some (JsDate.valid 2024 2 5 9 30 0) ∧
    (transformSimplizeData f s2).priceTimestamp = none ∧
    (transformSimplizeData f s2).ticker = s2.ticker ∧
    transformWarnings s1 = [] ∧ transformWarnings s2 = [] := by
  refine ⟨?_, ?_, rfl, rfl, rfl⟩
  · show (if jsTruthy s1.priceTimeStamp then parsePriceTimestamp s1.priceTimeStamp else none) =
      some (JsDate.valid 2024 2 5 9 30 0)
    rw [h1]
    rfl
  · show (if jsTruthy s2.priceTimeStamp then parsePriceTimestamp s2.priceTimeStamp else none) = none
    rw [h2]
    rfl

/-- Witness for C7 amended on two concrete raw records. -/
theorem transformDates_amended_witness :
    (transformSimplizeData (fun _ => JsDate.invalid)
      { ticker := "AAA", priceTimeStamp := "05/03/2024 09:30:00" }).priceTimestamp =
      some (JsDate.valid 2024 2 5 9 30 0) ∧
    (transformSimplizeData (fun _ => JsDate.invalid)
      { ticker := "BBB", priceTimeStamp := "not-a-date" }).priceTimestamp = none ∧
    (transformSimplizeData (fun _ => JsDate.invalid)
      { ticker := "BBB", priceTimeStamp := "not-a-date" }).ticker =
      ({ ticker := "BBB", priceTimeStamp := "not-a-date" } : CompanySummary).ticker ∧
    transformWarnings { ticker := "AAA", priceTimeStamp := "05/03/2024 09:30:00" } = [] ∧
    transformWarnings { ticker := "BBB", priceTimeStamp := "not-a-date" } = [] :=
  transformDates_amended (fun _ => JsDate.invalid)
    { ticker := "AAA", priceTimeStamp := "05/03/2024 09:30:00" }
    { ticker := "BBB", priceTimeStamp := "not-a-date" } rfl rfl

/-- Helper: ASCII uppercasing of a character is idempotent. -/
theorem char_toUpper_idem (c : Char) : c.toUpper.toUpper = c.toUpper := by
  by_cases h : c.toNat ≥ 97 ∧ c.toNat ≤ 122
  · have h1 : c.toUpper = Char.ofNat (c.toNat - 32) := if_pos h
    obtain ⟨ha, hb⟩ := h
    rw [h1]
    obtain ⟨n, hn⟩ : ∃ n, c.toNat = n := ⟨c.toNat, rfl⟩
    rw [hn] at ha hb ⊢
    interval_cases n <;> decide
  · have h1 : c.toUpper = c := if_neg h
    rw [h1, h1]

/-- Helper: a string all of whose characters are fixed by uppercasing is
fixed by `jsToUpper`. -/
theorem jsToUpper_fixed (s : String) (h : ∀ c ∈ s.toList, c.toUpper = c) :
    jsToUpper s = s := by
  cases s with
  | mk data =>
    rw [jsToUpper]
    congr 1
    calc List.map Char.toUpper (String.toList { data := data }) =
        List.map id data := List.map_congr_left (fun c hc => h c hc)
      _ = data := List.map_id data

/-- Helper: trimming only removes characters. -/
theorem mem_jsTrim (s : String) (c : Char) (h : c ∈ (jsTrim s).toList) :
    c ∈ s.toList := by
  have h2 : c ∈ ((((s.toList.dropWhile (fun c => c.isWhitespace)).reverse).dropWhile
      (fun c => c.isWhitespace)).reverse) := h
  rw [List.mem_reverse] at h2
  have h3 := (List.dropWhile_sublist _).subset h2
  rw [List.mem_reverse] at h3
  exact (List.dropWhile_sublist _).subset h3

/-- Helper: every character of an uppercased string is an uppercased
character. -/
theorem mem_jsToUpper (s : String) (c : Char) (h : c ∈ (jsToUpper s).toList) :
    ∃ d : Char, c = d.toUpper := by
  have h2 : c ∈ s.toList.map Char.toUpper := h
  obtain ⟨d, _, hd⟩ := List.mem_map.mp h2
  exact ⟨d, hd.symm⟩

/-- Helper: every identifier produced by `loadTickers` is a fixed point of
uppercasing (it is already uppercase) and is non-empty. -/
theorem loadTickers_upper (l : List String) :
    ∀ t ∈ loadTickers l, jsToUpper t = t ∧ t ≠ "" := by
  intro t ht
  rw [loadTickers] at ht
  have hp := List.mem_filter.mp ht
  obtain ⟨u, _, hmap⟩ := List.mem_map.mp hp.1
  refine ⟨?_, (jsTruthy_iff t).mp hp.2⟩
  subst hmap
  apply jsToUpper_fixed
  intro c hc
  have hc2 : c ∈ (jsToUpper u).toList := mem_jsTrim (jsToUpper u) c hc
  obtain ⟨d, hd⟩ := mem_jsToUpper u c hc2
  rw [hd]
  exact char_toUpper_idem d

/-- C8 as stated is refuted on the persistence leg: the transformer copies
the raw record's ticker verbatim (no case normalization), so a record whose
source ticker is lowercase `vic` is stored as `vic` and — since the lookup
uppercases its argument to `VIC` — is then not findable by `findByTicker`. -/
theorem tickerCase_counterexample :
    (transformSimplizeData (fun _ => JsDate.invalid) { ticker := "vic" }).ticker = "vic" ∧
    findByTicker
      (upsert [] (transformSimplizeData (fun _ => JsDate.invalid) { ticker := "vic" }) 0)
      "vic" = none :=
  ⟨rfl, rfl⟩

/-- C8 amended: identifiers loaded from the universe file are uppercased and
trimmed (each is a fixed point of uppercasing, and non-empty), and the store
lookup uppercases its argument; but the persisted ticker is copied verbatim
from the external record, so an ingested record is findable by (any case
variant of) its uppercased ticker exactly when the source payload's ticker is
already uppercase. -/
theorem tickerCase_amended (l : List String) (f : String → JsDate) (s : CompanySummary)
    (store : List CompanyRow) (now : Nat) (q : String)
    (hfresh : ∀ row ∈ store, row.company.ticker ≠ s.ticker)
    (hq : jsToUpper q = s.ticker) :
    (∀ t ∈ loadTickers l, jsToUpper t = t ∧ t ≠ "") ∧
    (transformSimplizeData f s).ticker = s.ticker ∧
    findByTicker (upsert store (transformSimplizeData f s) now) q =
      some { company := transformSimplizeData f s, created_at := now, updated_at := now } := by
  refine ⟨loadTickers_upper l, rfl, ?_⟩
  have hticker : (transformSimplizeData f s).ticker = s.ticker := rfl
  have hany : (store.any fun row =>
      row.company.ticker == (transformSimplizeData f s).ticker) = false := by
    rw [List.any_eq_false]
    intro row hrow
    rw [hticker]
    simpa using hfresh row hrow
  have hup : upsert store (transformSimplizeData f s) now =
      store ++ [{ company := transformSimplizeData f s,
                  created_at := now, updated_at := now }] := by
    rw [upsert, hany]
    simp
  rw [hup, findByTicker, List.find?_append]
  have hnone : store.find? (fun row => row.company.ticker == jsToUpper q) = none := by
    rw [List.find?_eq_none]
    intro row hrow
    simp only [hq]
    simpa using hfresh row hrow
  rw [hnone, Option.none_or]
  apply List.find?_cons_of_pos
  simp [hq, hticker]

/-- Witness for C8 amended: a record with source ticker `VIC` upserted into
the empty store at time 7 is found by looking up `vic`. -/
theorem tickerCase_amended_witness :
    findByTicker (upsert [] (transformSimplizeData (fun _ => JsDate.invalid)
        { ticker := "VIC" }) 7) "vic" =
      some { company := transformSimplizeData (fun _ => JsDate.invalid) { ticker := "VIC" },
             created_at := 7, updated_at := 7 } :=
  (tickerCase_amended ["vic"] (fun _ => JsDate.invalid) { ticker := "VIC" } [] 7 "vic"
    (by simp) (by decide)).2.2

end IQX
